import Mathlib

/-!
Verification of the rolling-shutter compositor against its design document.

The development shallowly embeds the program's core (src/image_processing.rs,
src/file_processing.rs, src/errors.rs, src/main.rs):

* machine integers (`u32`, `usize`) are modelled as `Nat`; where 32-bit
  wrap-around is reachable and observable (coordinate sums in the band
  geometry, `10u32.pow` in the sequence resolver, the `as u32` casts) the
  reduction `% 2 ^ 32` is written explicitly;
* the filesystem probed by the sequence resolver is an explicit oracle
  `String → Bool` (the `PathBuf::exists` calls);
* image decoding is modelled as total: an input frame is its path together
  with its decoded dimensions, and the pixel buffer is modelled by its
  dimensions plus the ordered list of band rectangles copied into it
  (`GenericImage::copy_from` first checks that the source fits and returns
  `false` without writing when it does not).
-/

/-- The starting direction of the shutter (src/main.rs, `enum Direction`). -/
inductive Direction where
  | N
  | E
  | S
  | W
deriving DecidableEq, Repr

/-- Error conditions of the program (src/errors.rs, `error_chain!` kinds).
Path and mask payloads are carried as strings. -/
inductive ErrorKind where
  | Unimplemented
  | CouldNotOpenImage (filename : String)
  | CouldNotProcessImage (filename : String)
  | CouldNotSaveOutput (filename : String)
  | CouldNotParseFilemask (mask : String)
  | CouldNotGetPaths
  | NoFileMaskFound
  | NoFilesFound
  | MultipleFileMasks
deriving DecidableEq, Repr

/-- A file mask variable description (src/file_processing.rs, `struct FileMask`).
The `digits` field is the Rust `usize`, modelled as `Nat`. -/
structure FileMask where
  zero_padded : Bool
  digits : Nat
deriving DecidableEq, Repr

/-- A description of what the provided path means
(src/file_processing.rs, `enum PathMode`). -/
inductive PathMode where
  | FileMask (s : String)
  | Folder (s : String)
deriving DecidableEq, Repr

/-- Band geometry (src/image_processing.rs, `generage_subimage_coords`,
name kept as in the source).  All four coordinates and the index are `u32`
in the source; the additions wrap modulo `2 ^ 32` (release semantics),
written explicitly.  The subtractions `by + bh - index - 1` cannot go below
zero because they are guarded by `index < bh` (resp. `index < bw`), so
truncated `Nat` subtraction agrees with the wrapped `u32` computation. -/
def generage_subimage_coords (bounds : Nat × Nat × Nat × Nat) (index : Nat)
    (direction : Direction) : Option (Nat × Nat × Nat × Nat) :=
  match bounds, direction with
  | (bx, yb, bw, bh), .N =>
      if bh ≤ index then none else some (bx, (yb + index) % 2 ^ 32, bw, 1)
  | (bx, yb, bw, bh), .S =>
      if bh ≤ index then none else some (bx, (yb + bh - index - 1) % 2 ^ 32, bw, 1)
  | (bx, yb, bw, bh), .W =>
      if bw ≤ index then none else some ((bx + index) % 2 ^ 32, yb, 1, bh)
  | (bx, yb, bw, bh), .E =>
      if bw ≤ index then none else some ((bx + bw - index - 1) % 2 ^ 32, yb, 1, bh)

/-- The dimension that bounds the scan for a given direction: the height for
North/South sweeps and the width for West/East sweeps. -/
def scanExtent (bw bh : Nat) : Direction → Nat
  | .N => bh
  | .S => bh
  | .W => bw
  | .E => bw

/-- C1, as stated, fails on `u32` overflow: with bounds
`(0, 2^32 - 1, 1, 2)`, index `1` and direction North the code wraps the row
coordinate to `0` instead of returning the rectangle `(0, (2^32 - 1) + 1, 1, 1)`
(and the scan is not exhausted either, since `1 < 2`). -/
theorem C1_band_geometry_counterexample :
    generage_subimage_coords (0, 2 ^ 32 - 1, 1, 2) 1 Direction.N = some (0, 0, 1, 1) ∧
    generage_subimage_coords (0, 2 ^ 32 - 1, 1, 2) 1 Direction.N ≠
      some (0, 2 ^ 32 - 1 + 1, 1, 1) ∧
    generage_subimage_coords (0, 2 ^ 32 - 1, 1, 2) 1 Direction.N ≠ none := by
  refine ⟨rfl, ?_, ?_⟩ <;> decide

/-- C1 (amended): `generage_subimage_coords` returns `none` exactly when the
index has reached the scan extent (`bh` for North/South, `bw` for West/East);
otherwise it returns the claimed rectangle with the varying coordinate reduced
modulo `2 ^ 32` (the `u32` wrap-around). -/
theorem C1_band_geometry (bx yb bw bh i : Nat) (d : Direction) :
    (generage_subimage_coords (bx, yb, bw, bh) i d = none ↔ scanExtent bw bh d ≤ i) ∧
    (i < bh →
      generage_subimage_coords (bx, yb, bw, bh) i Direction.N =
        some (bx, (yb + i) % 2 ^ 32, bw, 1)) ∧
    (i < bh →
      generage_subimage_coords (bx, yb, bw, bh) i Direction.S =
        some (bx, (yb + bh - i - 1) % 2 ^ 32, bw, 1)) ∧
    (i < bw →
      generage_subimage_coords (bx, yb, bw, bh) i Direction.W =
        some ((bx + i) % 2 ^ 32, yb, 1, bh)) ∧
    (i < bw →
      generage_subimage_coords (bx, yb, bw, bh) i Direction.E =
        some ((bx + bw - i - 1) % 2 ^ 32, yb, 1, bh)) := by
  refine ⟨?_, ?_, ?_, ?_, ?_⟩
  · cases d <;> simp [generage_subimage_coords, scanExtent]
  all_goals exact fun h => by simp [generage_subimage_coords, Nat.not_le.mpr h]

/-- C1 witness: the amended theorem evaluated on the bounds used by the
repository's own unit test, index 30, direction South. -/
theorem C1_band_geometry_witness :
    generage_subimage_coords (3, 4, 640, 480) 30 Direction.S =
      some (3, (4 + 480 - 30 - 1) % 2 ^ 32, 640, 1) :=
  (C1_band_geometry 3 4 640 480 30 Direction.S).2.2.1 (by decide)

deriving instance DecidableEq for Except

/-- The code-point ranges of the Unicode general category Nd (decimal
number), which is what `[\d]` matches in the `regex` crate (the class is
Unicode-aware, not ASCII-only); table as of Unicode 15.1. -/
def ndRanges : List (Nat × Nat) :=
  [(0x0030, 0x0039), (0x0660, 0x0669), (0x06F0, 0x06F9), (0x07C0, 0x07C9),
   (0x0966, 0x096F), (0x09E6, 0x09EF), (0x0A66, 0x0A6F), (0x0AE6, 0x0AEF),
   (0x0B66, 0x0B6F), (0x0BE6, 0x0BEF), (0x0C66, 0x0C6F), (0x0CE6, 0x0CEF),
   (0x0D66, 0x0D6F), (0x0DE6, 0x0DEF), (0x0E50, 0x0E59), (0x0ED0, 0x0ED9),
   (0x0F20, 0x0F29), (0x1040, 0x1049), (0x1090, 0x1099), (0x17E0, 0x17E9),
   (0x1810, 0x1819), (0x1946, 0x194F), (0x19D0, 0x19D9), (0x1A80, 0x1A89),
   (0x1A90, 0x1A99), (0x1B50, 0x1B59), (0x1BB0, 0x1BB9), (0x1C40, 0x1C49),
   (0x1C50, 0x1C59), (0xA620, 0xA629), (0xA8D0, 0xA8D9), (0xA900, 0xA909),
   (0xA9D0, 0xA9D9), (0xA9F0, 0xA9F9), (0xAA50, 0xAA59), (0xABF0, 0xABF9),
   (0xFF10, 0xFF19), (0x104A0, 0x104A9), (0x10D30, 0x10D39),
   (0x11066, 0x1106F), (0x110F0, 0x110F9), (0x11136, 0x1113F),
   (0x111D0, 0x111D9), (0x112F0, 0x112F9), (0x11450, 0x11459),
   (0x114D0, 0x114D9), (0x11650, 0x11659), (0x116C0, 0x116C9),
   (0x11730, 0x11739), (0x118E0, 0x118E9), (0x11950, 0x11959),
   (0x11C50, 0x11C59), (0x11D50, 0x11D59), (0x11DA0, 0x11DA9),
   (0x11F50, 0x11F59), (0x16A60, 0x16A69), (0x16AC0, 0x16AC9),
   (0x16B50, 0x16B59), (0x1D7CE, 0x1D7FF), (0x1E140, 0x1E149),
   (0x1E2F0, 0x1E2F9), (0x1E4F0, 0x1E4F9), (0x1E950, 0x1E959),
   (0x1FBF0, 0x1FBF9)]

/-- Membership in the regex crate's `\d` class: a Unicode decimal digit
(general category Nd).  ASCII `0-9` is its first range. -/
def isUnicodeDigit (c : Char) : Bool :=
  ndRanges.any (fun r => r.1 ≤ c.toNat && c.toNat ≤ r.2)

/-- Greedy match of `([\d]+)d` at the head of a character list: the maximal
nonempty run of Unicode decimal digits followed by the literal `d`.  Returns
the captured digit run and the remainder after the `d`.  Backtracking inside
the digit run can never help, because a digit given back would have to match
the literal `d`, which is not a digit; so greedy-then-check is exact. -/
def digitsThenD (l : List Char) : Option (List Char × List Char) :=
  match l.takeWhile isUnicodeDigit with
  | [] => none
  | d :: ds =>
    match l.dropWhile isUnicodeDigit with
    | 'd' :: r => some (d :: ds, r)
    | _ => none

/-- Match of the placeholder pattern `%(0)?([\d]+)d` at the head of a
character list, with the regex crate's leftmost-first (Perl-like) capture
semantics: after `%`, the optional group `(0)?` prefers to capture a literal
`0`, but if no overall match results (as in `%0d`), the engine falls back to
leaving the group empty so that the `0` is consumed by `([\d]+)`.
Returns (group 1 present, group 2 capture, remainder after the match). -/
def placeholderAt : List Char → Option (Bool × List Char × List Char)
  | [] => none
  | c :: rest =>
    if c = '%' then
      match rest with
      | [] => none
      | c2 :: rest2 =>
        if c2 = '0' then
          match digitsThenD rest2 with
          | some (ds, r) => some (true, ds, r)
          | none =>
            match digitsThenD ('0' :: rest2) with
            | some (ds, r) => some (false, ds, r)
            | none => none
        else
          match digitsThenD rest with
          | some (ds, r) => some (false, ds, r)
          | none => none
    else none

/-- Leftmost match of the placeholder pattern in a character list, as
`Regex::captures_iter` produces it: the scan tries each start position in
order.  Returns (characters before the match, group 1 present, group 2
capture, remainder after the match). -/
def findFrom : List Char → Option (List Char × Bool × List Char × List Char)
  | [] => none
  | c :: cs =>
    match placeholderAt (c :: cs) with
    | some (zp, ds, rest) => some ([], zp, ds, rest)
    | none =>
      match findFrom cs with
      | some (pre, zp, ds, rest) => some (c :: pre, zp, ds, rest)
      | none => none

/-- Decimal value of a digit run read with ASCII digit weights (the value
`str::parse::<usize>` computes when it succeeds). -/
def digitsToNat (ds : List Char) : Nat :=
  ds.foldl (fun acc c => acc * 10 + (c.toNat - 48)) 0

/-- `str::parse::<usize>` on the group 2 capture: it succeeds only on ASCII
digits `0-9` whose value fits in `usize` (64-bit), and fails otherwise — in
particular on the non-ASCII digits that `[\d]` matches, and on runs whose
value exceeds `usize::MAX`. -/
def parseUsize (ds : List Char) : Option Nat :=
  if ds.all Char.isDigit = true ∧ digitsToNat ds < 2 ^ 64 then
    some (digitsToNat ds)
  else none

/-- Parse a given file mask (src/file_processing.rs, `parse_filemask`).
Outcomes, in the code's evaluation order: zero matches of the placeholder
pattern fail with `NoFileMaskFound`; otherwise the first iteration of
`captures_iter` builds the `FileMask`, whose `digits` field comes from
`parse::<usize>().unwrap()` — when that parse fails the program panics,
modelled as the outer `none`, and this happens before a second match is
examined; with the first capture parsed, a second match fails with
`MultipleFileMasks`, and exactly one match succeeds with the substrings
before and after the match and the captures (`zero_padded` = group 1
present). -/
def parse_filemask (s : String) :
    Option (Except ErrorKind (String × FileMask × String)) :=
  match findFrom s.data with
  | none => some (.error ErrorKind.NoFileMaskFound)
  | some (pre, zp, ds, rest) =>
    match parseUsize ds with
    | none => none
    | some v =>
      match findFrom rest with
      | some _ => some (.error ErrorKind.MultipleFileMasks)
      | none => some (.ok (⟨pre⟩, ⟨zp, v⟩, ⟨rest⟩))

/-- The full text of a placeholder match with captures `zp` (group 1 present)
and `ds` (group 2): `%`, then the optional literal `0`, then the digit run,
then `d`. -/
def matchedText (zp : Bool) (ds : List Char) : List Char :=
  '%' :: ((if zp then '0' :: ds else ds) ++ ['d'])

/-- Number of start positions in a character list at which the placeholder
pattern `%(0)?([\d]+)d` matches.  Matches of this pattern starting at
distinct positions cannot overlap (every character of a match after the
leading `%` is a digit or `d`, never `%`), so this coincides with the number
of matches `captures_iter` yields. -/
def countOcc : List Char → Nat
  | [] => 0
  | c :: cs => (if (placeholderAt (c :: cs)).isSome then 1 else 0) + countOcc cs

example : parse_filemask "foo%03d.png" = some (.ok ("foo", ⟨true, 3⟩, ".png")) := by decide
example : parse_filemask "foo%5d.jpg" = some (.ok ("foo", ⟨false, 5⟩, ".jpg")) := by decide
example : parse_filemask "foo.png" = some (.error ErrorKind.NoFileMaskFound) := by decide
example : parse_filemask "foo%02dbar%4d.png" = some (.error ErrorKind.MultipleFileMasks) := by decide
example : parse_filemask "%0d" = some (.ok ("", ⟨false, 0⟩, "")) := by decide
example : parse_filemask "%003d" = some (.ok ("", ⟨true, 3⟩, "")) := by decide
example : countOcc "foo%02dbar%4d.png".data = 2 := by decide
example : parse_filemask "%99999999999999999999d" = none := by decide
example : parse_filemask "%੩d" = none := by decide
example : parse_filemask "x%3dy%੩d" = some (.error ErrorKind.MultipleFileMasks) := by decide
example : parse_filemask "%੩d%4d" = none := by decide

/-- Decimal rendering of `i` left-zero-padded to `width`
(`format!("{:0width$}", i)`); natural width when the rendering is already
at least `width` long (in particular whenever `width = 0`). -/
def pad (i width : Nat) : String :=
  let s := Nat.repr i
  if s.length < width then ⟨List.replicate (width - s.length) '0' ++ s.data⟩ else s

/-- The candidate-index upper bound of the probing loop
(src/file_processing.rs line 88): `10u32.pow(mask.digits as u32)`, i.e.
`10 ^ digits` computed in wrapping 32-bit arithmetic after truncating the
`usize` digit count to `u32`. -/
def candidate_bound (digits : Nat) : Nat :=
  10 ^ (digits % 2 ^ 32) % 2 ^ 32

/-- The probing loop of `get_paths` (src/file_processing.rs lines 88-102),
with the loop indices made an explicit list and the filesystem an oracle
`fsE`: an existing candidate is appended to the accumulator; a missing
candidate is skipped while the accumulator is empty and ends the loop
otherwise. -/
def probeAux (fsE : String → Bool) (left right : String) (width : Nat) :
    List Nat → List String → List String
  | [], acc => acc
  | i :: rest, acc =>
    let filename := left ++ pad i width ++ right
    if fsE filename then probeAux fsE left right width rest (acc ++ [filename])
    else if acc.isEmpty then probeAux fsE left right width rest acc
    else acc

/-- Sequence resolution for a successfully parsed mask (the body of the
`PathMode::FileMask` arm of `get_paths` after `parse_filemask` succeeds,
src/file_processing.rs lines 86-108). -/
def resolve_mask (fsE : String → Bool) (left : String) (mask : FileMask)
    (right : String) : Except ErrorKind (List String) :=
  let width := if mask.zero_padded then mask.digits else 0
  let paths := probeAux fsE left right width (List.range (candidate_bound mask.digits)) []
  if paths.isEmpty then .error ErrorKind.NoFilesFound else .ok paths

/-- Path resolution (src/file_processing.rs, `get_paths`): a file mask is
parsed (a parse failure is wrapped as `CouldNotParseFilemask`, a parse panic
propagates as the outer `none`) and then resolved against the filesystem
oracle; folder mode always fails with `Unimplemented`. -/
def get_paths (fsE : String → Bool) (path_mode : PathMode) :
    Option (Except ErrorKind (List String)) :=
  match path_mode with
  | .FileMask filemask =>
    match parse_filemask filemask with
    | none => none
    | some (.error _) => some (.error (ErrorKind.CouldNotParseFilemask filemask))
    | some (.ok (left, mask, right)) => some (resolve_mask fsE left mask right)
  | .Folder _ => some (.error ErrorKind.Unimplemented)

example : pad 7 3 = "007" := by decide
example : pad 1234 3 = "1234" := by decide
example : pad 5 0 = "5" := by decide
example :
    resolve_mask (fun s => s == "a2.png" || s == "a3.png" || s == "a4.png" || s == "a6.png")
      "a" ⟨false, 1⟩ ".png" = .ok ["a2.png", "a3.png", "a4.png"] := by decide
example :
    resolve_mask (fun _ => false) "a" ⟨false, 1⟩ ".png" =
      .error ErrorKind.NoFilesFound := by decide
example :
    get_paths (fun s => s == "a0.png") (PathMode.FileMask "a%1d.png") =
      some (.ok ["a0.png"]) := by decide
example :
    get_paths (fun _ => true) (PathMode.Folder "frames") =
      some (.error ErrorKind.Unimplemented) := by decide

/-- The output pixel buffer (`image::RgbaImage` in `process_images`),
abstracted to its dimensions and the ordered list of band rectangles
`(x, y, width, height)` successfully copied into it. -/
structure Buffer where
  width : Nat
  height : Nat
  writes : List (Nat × Nat × Nat × Nat)
deriving DecidableEq, Repr

/-- `GenericImage::copy_from(&subimage, x, y)` on the output buffer: if the
`w × h` source region placed at `(x, y)` fits inside the buffer the band is
written and `true` is returned, otherwise nothing is written and the call
returns `false`. -/
def copy_from (buf : Buffer) (x y w h : Nat) : Buffer × Bool :=
  if x + w ≤ buf.width ∧ y + h ≤ buf.height then
    ({ buf with writes := buf.writes ++ [(x, y, w, h)] }, true)
  else (buf, false)

/-- One compositing step (src/image_processing.rs, `process_image`): the band
is computed from the bounds of the decoded frame (`image.bounds()`, which for
a decoded image is `(0, 0, frame width, frame height)`), the `usize` loop
index having been truncated to `u32`; if a band is returned its copy is
attempted on the output buffer, otherwise the step reports `false`.  The
function itself never returns an error (`Ok` in both arms). -/
def process_image (buf : Buffer) (fw fh : Nat) (index : Nat) (d : Direction) :
    Except ErrorKind (Buffer × Bool) :=
  match generage_subimage_coords (0, 0, fw, fh) (index % 2 ^ 32) d with
  | some (x, y, w, h) => .ok (copy_from buf x y w h)
  | none => .ok (buf, false)

/-- The frame loop of `process_images` (src/image_processing.rs lines
105-121): each frame after the first is decoded (recorded in the decode
list) before the step runs; a step error would be wrapped as
`CouldNotProcessImage` with the frame's path; a step reporting `false`
breaks out of the loop.  A frame is `(path, decoded width, decoded height)`. -/
def comp_loop (d : Direction) :
    Nat → List (String × Nat × Nat) → Buffer → List String →
    Except ErrorKind (Buffer × List String)
  | _, [], buf, dec => .ok (buf, dec)
  | i, (p, fw, fh) :: rest, buf, dec =>
    let dec1 := if 0 < i then dec ++ [p] else dec
    match process_image buf fw fh i d with
    | .error _ => .error (ErrorKind.CouldNotProcessImage p)
    | .ok (buf1, ok1) =>
      if ok1 then comp_loop d (i + 1) rest buf1 dec1
      else .ok (buf1, dec1)

/-- The compositing run (src/image_processing.rs, `process_images`), with
decoding and saving modelled as always succeeding: the first frame is decoded
up front (the code unwraps it, relying on the resolver's non-emptiness
invariant, so the empty list is `none` here), the output buffer takes frame
0's dimensions, and the loop starts at index 0 over all frames.  On success
the final buffer and the list of decoded paths are returned. -/
def process_images (frames : List (String × Nat × Nat)) (d : Direction) :
    Option (Except ErrorKind (Buffer × List String)) :=
  match frames with
  | [] => none
  | (p0, w, h) :: rest =>
    some (comp_loop d 0 ((p0, w, h) :: rest) ⟨w, h, []⟩ [p0])

/-- One compositing step as the design document describes it.  Modelled from
the spec: step 3b of the Compositor contract asks Band Geometry for
`band(output_buffer.bounds(), index, direction)`, i.e. the band is computed
from the output buffer's bounds rather than from the decoded frame's bounds.
Everything else is as in `process_image`. -/
def process_image_spec (buf : Buffer) (_fw _fh : Nat) (index : Nat) (d : Direction) :
    Except ErrorKind (Buffer × Bool) :=
  match generage_subimage_coords (0, 0, buf.width, buf.height) (index % 2 ^ 32) d with
  | some (x, y, w, h) => .ok (copy_from buf x y w h)
  | none => .ok (buf, false)

/-- The frame loop with the spec's notion of a compositing step.  Modelled
from the spec: identical to `comp_loop` except that each step is
`process_image_spec`. -/
def comp_loop_spec (d : Direction) :
    Nat → List (String × Nat × Nat) → Buffer → List String →
    Except ErrorKind (Buffer × List String)
  | _, [], buf, dec => .ok (buf, dec)
  | i, (p, fw, fh) :: rest, buf, dec =>
    let dec1 := if 0 < i then dec ++ [p] else dec
    match process_image_spec buf fw fh i d with
    | .error _ => .error (ErrorKind.CouldNotProcessImage p)
    | .ok (buf1, ok1) =>
      if ok1 then comp_loop_spec d (i + 1) rest buf1 dec1
      else .ok (buf1, dec1)

/-- The compositing run with the spec's notion of a compositing step.
Modelled from the spec: identical to `process_images` except for the loop. -/
def process_images_spec (frames : List (String × Nat × Nat)) (d : Direction) :
    Option (Except ErrorKind (Buffer × List String)) :=
  match frames with
  | [] => none
  | (p0, w, h) :: rest =>
    some (comp_loop_spec d 0 ((p0, w, h) :: rest) ⟨w, h, []⟩ [p0])

example :
    process_images [("f0", 2, 2), ("f1", 2, 2), ("f2", 2, 2)] Direction.W =
      some (.ok (⟨2, 2, [(0, 0, 1, 2), (1, 0, 1, 2)]⟩, ["f0", "f1", "f2"])) := by decide
example :
    process_images [("f0", 2, 2), ("f1", 3, 3)] Direction.N =
      some (.ok (⟨2, 2, [(0, 0, 2, 1)]⟩, ["f0", "f1"])) := by decide
example :
    process_images_spec [("f0", 2, 2), ("f1", 3, 3)] Direction.N =
      some (.ok (⟨2, 2, [(0, 0, 2, 1), (0, 1, 2, 1)]⟩, ["f0", "f1"])) := by decide
example :
    process_images [("f0", 10, 10), ("f1", 10, 10), ("f2", 10, 10), ("f3", 10, 10),
        ("f4", 10, 10)] Direction.N =
      some (.ok (⟨10, 10,
        [(0, 0, 10, 1), (0, 1, 10, 1), (0, 2, 10, 1), (0, 3, 10, 1), (0, 4, 10, 1)]⟩,
        ["f0", "f1", "f2", "f3", "f4"])) := by decide

/-- C9: whenever path resolution returns successfully, the returned path list
is non-empty; an empty probe is surfaced as an error (`NoFilesFound`), never
as an empty-but-valid result. -/
theorem C9_paths_nonempty (fsE : String → Bool) (pm : PathMode) (l : List String)
    (h : get_paths fsE pm = some (.ok l)) : l ≠ [] := by
  cases pm with
  | Folder s => simp [get_paths] at h
  | FileMask s =>
    cases hp : parse_filemask s with
    | none => simp [get_paths, hp] at h
    | some r =>
      cases r with
      | error e => simp [get_paths, hp] at h
      | ok triple =>
        obtain ⟨left, mask, right⟩ := triple
        have hres : resolve_mask fsE left mask right = .ok l := by
          simp only [get_paths, hp, Option.some.injEq] at h
          exact h
        simp only [resolve_mask] at hres
        split at hres <;> split at hres <;>
          first
            | (rename_i hne
               rw [Except.ok.injEq] at hres
               subst hres
               simpa [List.isEmpty_iff] using hne)
            | simp at hres

/-- C9 witness: a mask with one existing file yields a (non-empty) singleton. -/
theorem C9_paths_nonempty_witness : (["a0.png"] : List String) ≠ [] :=
  C9_paths_nonempty (fun s => s == "a0.png") (PathMode.FileMask "a%1d.png")
    ["a0.png"] (by decide)

/-- C10: the probing upper bound `10u32.pow(digits as u32)` represents
`10 ^ digits` exactly if and only if `digits ≤ 9`; for `digits ≥ 10` the true
power exceeds the 32-bit range. -/
theorem C10_candidate_bound_exact (d : Nat) :
    (candidate_bound d = 10 ^ d ↔ d ≤ 9) ∧ (10 ≤ d → 2 ^ 32 < 10 ^ d) := by
  have hlt : ∀ e : Nat, 10 ≤ e → 2 ^ 32 < 10 ^ e := fun e he =>
    lt_of_lt_of_le (by norm_num) (Nat.pow_le_pow_right (by norm_num) he)
  constructor
  · constructor
    · intro h
      by_contra hd
      have h1 : candidate_bound d < 2 ^ 32 := Nat.mod_lt _ (by norm_num)
      have h2 := hlt d (by omega)
      omega
    · intro h
      have h1 : d % 2 ^ 32 = d := Nat.mod_eq_of_lt (by omega)
      have h2 : 10 ^ d < 2 ^ 32 :=
        lt_of_le_of_lt (Nat.pow_le_pow_right (by norm_num) h) (by norm_num)
      unfold candidate_bound
      rw [h1, Nat.mod_eq_of_lt h2]
  · exact hlt d

/-- C10 witness: at ten digits the bound no longer represents the power,
which exceeds the 32-bit range. -/
theorem C10_candidate_bound_exact_witness :
    candidate_bound 10 ≠ 10 ^ 10 ∧ 2 ^ 32 < 10 ^ 10 :=
  ⟨fun h => by have := (C10_candidate_bound_exact 10).1.mp h; omega,
   (C10_candidate_bound_exact 10).2 (by norm_num)⟩

/-- C3: the code does not surface a failed band copy as
`CouldNotProcessImage`.  With a 2×2 first frame and a 3×3 second frame
(direction North), the band of step 1 is computed and its copy onto the 2×2
buffer fails (`copy_from` returns `false` and writes nothing), yet the run
completes with `Ok`: `process_image` wraps the `copy_from` boolean in `Ok`,
so the `chain_err(CouldNotProcessImage)` in the loop can never fire and the
`false` is indistinguishable from scan exhaustion — the loop silently breaks. -/
theorem C3_copy_failure_not_an_error :
    generage_subimage_coords (0, 0, 3, 3) 1 Direction.N = some (0, 1, 3, 1) ∧
    copy_from ⟨2, 2, [(0, 0, 2, 1)]⟩ 0 1 3 1 = (⟨2, 2, [(0, 0, 2, 1)]⟩, false) ∧
    process_image ⟨2, 2, [(0, 0, 2, 1)]⟩ 3 3 1 Direction.N =
      .ok (⟨2, 2, [(0, 0, 2, 1)]⟩, false) ∧
    process_images [("f0", 2, 2), ("f1", 3, 3)] Direction.N =
      some (.ok (⟨2, 2, [(0, 0, 2, 1)]⟩, ["f0", "f1"])) := by
  refine ⟨rfl, ?_, rfl, rfl⟩
  decide

/-- C4, as stated, fails at the exhausted index itself: with 3 frames of
width 2 and direction West, exactly 2 bands (columns 0 and 1) are composited,
but the decode list of the run contains all three paths — the 3rd frame is
decoded (at the top of iteration 2) before the exhausted band query stops the
loop. -/
theorem C4_exhaustion_counterexample :
    process_images [("f0", 2, 2), ("f1", 2, 2), ("f2", 2, 2)] Direction.W =
      some (.ok (⟨2, 2, [(0, 0, 1, 2), (1, 0, 1, 2)]⟩, ["f0", "f1", "f2"])) ∧
    "f2" ∈ ["f0", "f1", "f2"] := by
  exact ⟨by decide, by decide⟩

/-- C4 (amended): when the band query is exhausted at index `i`, the loop
stops immediately with the buffer unchanged — the frame at index `i` is
decoded (when `i > 0`) but contributes no band, and no later frame is ever
decoded or composited; on 3 frames of width 2 going West, exactly the two
column bands 0 and 1 are composited and the 3rd frame is decoded but not
composited. -/
theorem C4_exhaustion_stops :
    (∀ (d : Direction) (i : Nat) (p : String) (fw fh : Nat)
        (rest : List (String × Nat × Nat)) (buf : Buffer) (dec : List String),
      generage_subimage_coords (0, 0, fw, fh) (i % 2 ^ 32) d = none →
      comp_loop d i ((p, fw, fh) :: rest) buf dec =
        .ok (buf, if 0 < i then dec ++ [p] else dec)) ∧
    process_images [("f0", 2, 2), ("f1", 2, 2), ("f2", 2, 2)] Direction.W =
      some (.ok (⟨2, 2, [(0, 0, 1, 2), (1, 0, 1, 2)]⟩, ["f0", "f1", "f2"])) := by
  constructor
  · intro d i p fw fh rest buf dec h
    simp only [comp_loop, process_image, h]
    simp
  · decide

/-- C4 witness: the stop lemma evaluated at index 2, width-2 frame,
direction West. -/
theorem C4_exhaustion_stops_witness :
    comp_loop Direction.W 2 [("g", 2, 2)] ⟨2, 2, []⟩ ["a", "b"] =
      .ok (⟨2, 2, []⟩, if 0 < 2 then ["a", "b"] ++ ["g"] else ["a", "b"]) :=
  C4_exhaustion_stops.1 Direction.W 2 "g" 2 2 [] ⟨2, 2, []⟩ ["a", "b"] (by decide)

/-- Copying a band never changes the buffer's dimensions. -/
theorem copy_from_dims (buf : Buffer) (x y w h : Nat) :
    (copy_from buf x y w h).1.width = buf.width ∧
    (copy_from buf x y w h).1.height = buf.height := by
  unfold copy_from
  split <;> exact ⟨rfl, rfl⟩

/-- A compositing step never changes the buffer's dimensions. -/
theorem process_image_dims (buf : Buffer) (fw fh i : Nat) (d : Direction)
    (buf1 : Buffer) (b : Bool) (h : process_image buf fw fh i d = .ok (buf1, b)) :
    buf1.width = buf.width ∧ buf1.height = buf.height := by
  unfold process_image at h
  split at h
  · next x y w hh _ =>
    rw [Except.ok.injEq] at h
    have hd := copy_from_dims buf x y w hh
    rw [h] at hd
    exact hd
  · rw [Except.ok.injEq] at h
    injection h with h1 h2
    subst h1
    exact ⟨rfl, rfl⟩

/-- On frames whose dimensions all equal the buffer's, the source loop (band
from the frame's bounds) and the spec's loop (band from the buffer's bounds)
agree. -/
theorem comp_loop_eq_spec (d : Direction) (w h : Nat) :
    ∀ (frames : List (String × Nat × Nat)) (i : Nat) (buf : Buffer)
      (dec : List String),
      (∀ f ∈ frames, f.2.1 = w ∧ f.2.2 = h) → buf.width = w → buf.height = h →
      comp_loop d i frames buf dec = comp_loop_spec d i frames buf dec
  | [], _, _, _, _, _, _ => rfl
  | (p, fw, fh) :: rest, i, buf, dec, hall, hw, hh => by
    have hfw : fw = w := (hall (p, fw, fh) (List.mem_cons_self _ _)).1
    have hfh : fh = h := (hall (p, fw, fh) (List.mem_cons_self _ _)).2
    have hpi : process_image buf fw fh i d = process_image_spec buf fw fh i d := by
      simp only [process_image, process_image_spec, hfw, hfh, hw, hh]
    simp only [comp_loop, comp_loop_spec, hpi]
    cases hps : process_image_spec buf fw fh i d with
    | error e => rfl
    | ok r =>
      obtain ⟨buf1, ok1⟩ := r
      cases ok1 with
      | false => rfl
      | true =>
        have hdims := process_image_dims buf fw fh i d buf1 true (hpi ▸ hps)
        exact comp_loop_eq_spec d w h rest (i + 1) buf1
          (if 0 < i then dec ++ [p] else dec)
          (fun f hf => hall f (List.mem_cons_of_mem _ hf))
          (by omega) (by omega)

/-- C5, as stated, fails on the code: the band of each step is computed from
the bounds of the frame decoded at that step, not from the output buffer's
bounds.  With a 2×2 first frame and a 3×3 second frame going North, the code
computes step 1's band from the 3×3 frame, the copy fails and the run stops
with a single band written, whereas computing it from the buffer's bounds
(the spec's reading, `process_images_spec`) writes both bands; the two runs
disagree. -/
theorem C5_band_source_counterexample :
    process_images [("f0", 2, 2), ("f1", 3, 3)] Direction.N =
      some (.ok (⟨2, 2, [(0, 0, 2, 1)]⟩, ["f0", "f1"])) ∧
    process_images_spec [("f0", 2, 2), ("f1", 3, 3)] Direction.N =
      some (.ok (⟨2, 2, [(0, 0, 2, 1), (0, 1, 2, 1)]⟩, ["f0", "f1"])) ∧
    process_images [("f0", 2, 2), ("f1", 3, 3)] Direction.N ≠
      process_images_spec [("f0", 2, 2), ("f1", 3, 3)] Direction.N := by
  refine ⟨rfl, rfl, ?_⟩
  decide

/-- C5 (amended): each step's band is computed from the decoded frame's
bounds; whenever every frame of the sequence has frame 0's dimensions (the
dimensions of the output buffer), this coincides with computing it from the
output buffer's bounds, i.e. the run equals the spec-modelled run. -/
theorem C5_band_source (d : Direction) (p0 : String) (w h : Nat)
    (rest : List (String × Nat × Nat))
    (hall : ∀ f ∈ (p0, w, h) :: rest, f.2.1 = w ∧ f.2.2 = h) :
    process_images ((p0, w, h) :: rest) d =
      process_images_spec ((p0, w, h) :: rest) d := by
  simp only [process_images, process_images_spec]
  rw [comp_loop_eq_spec d w h ((p0, w, h) :: rest) 0 ⟨w, h, []⟩ [p0] hall rfl rfl]

/-- C5 witness: two same-sized frames give identical runs under both
readings. -/
theorem C5_band_source_witness :
    process_images [("f0", 2, 2), ("f1", 2, 2)] Direction.N =
      process_images_spec [("f0", 2, 2), ("f1", 2, 2)] Direction.N :=
  C5_band_source Direction.N "f0" 2 2 [("f1", 2, 2)] (by decide)

/-- Once the probing loop has found a file, it appends existing candidates
until the first missing one and ignores everything after it: with a
non-empty accumulator the loop returns the accumulator extended by the
longest existing-file prefix of the remaining candidates. -/
theorem probeAux_append (fsE : String → Bool) (left right : String) (width : Nat) :
    ∀ (idxs : List Nat) (acc : List String), acc ≠ [] →
      probeAux fsE left right width idxs acc =
        acc ++ (idxs.map (fun i => left ++ pad i width ++ right)).takeWhile fsE
  | [], acc, _ => by simp [probeAux]
  | i :: idxs, acc, hacc => by
    simp only [probeAux, List.map_cons]
    by_cases hf : fsE (left ++ pad i width ++ right) = true
    · rw [if_pos hf,
        probeAux_append fsE left right width idxs
          (acc ++ [left ++ pad i width ++ right]) (by simp),
        List.takeWhile_cons_of_pos hf]
      simp
    · rw [if_neg hf, if_neg (by simpa [List.isEmpty_iff] using hacc),
        List.takeWhile_cons_of_neg hf]
      simp

/-- The probing loop started empty computes the first contiguous run of
existing candidates: leading missing candidates are dropped, then existing
candidates are taken until the first missing one. -/
theorem probeAux_firstRun (fsE : String → Bool) (left right : String) (width : Nat) :
    ∀ idxs : List Nat,
      probeAux fsE left right width idxs [] =
        ((idxs.map (fun i => left ++ pad i width ++ right)).dropWhile
          (fun c => !fsE c)).takeWhile fsE
  | [] => by simp [probeAux]
  | i :: idxs => by
    simp only [probeAux, List.map_cons, List.nil_append]
    by_cases hf : fsE (left ++ pad i width ++ right) = true
    · rw [if_pos hf,
        probeAux_append fsE left right width idxs [left ++ pad i width ++ right]
          (by simp),
        List.dropWhile_cons_of_neg (by simp [hf]),
        List.takeWhile_cons_of_pos hf]
      simp
    · rw [if_neg hf, if_pos (show ([] : List String).isEmpty = true from rfl),
        probeAux_firstRun fsE left right width idxs,
        List.dropWhile_cons_of_pos (by simp [hf])]

/-- C2 (amended): for a parsed mask, sequence resolution enumerates candidate
indices `0, 1, …` below `candidate_bound digits` — `10 ^ digits` computed in
wrapping 32-bit arithmetic, which equals `10 ^ digits` only for `digits ≤ 9` —
formats each as `prefix ++ pad(i, width) ++ suffix` with `width = digits` when
zero-padded and `0` otherwise, and returns exactly the first contiguous run of
existing candidates; an empty run fails with `NoFilesFound`. -/
theorem C2_sequence_resolution (fsE : String → Bool) (left right : String)
    (zp : Bool) (digits : Nat) :
    resolve_mask fsE left ⟨zp, digits⟩ right =
      (let width := if zp then digits else 0
       let cands := (List.range (candidate_bound digits)).map
         (fun i => left ++ pad i width ++ right)
       let run := (cands.dropWhile (fun c => !fsE c)).takeWhile fsE
       if run.isEmpty then .error ErrorKind.NoFilesFound else .ok run) := by
  simp only [resolve_mask, probeAux_firstRun]

/-- Inside a candidate list whose first element exists and whose second does
not, the first contiguous run of existing elements is exactly the first
element. -/
theorem firstRun_cons_two {α : Type} (p : α → Bool) (x y : α) (l : List α)
    (hx : p x = true) (hy : p y = false) :
    ((x :: y :: l).dropWhile (fun c => !p c)).takeWhile p = [x] := by
  rw [List.dropWhile_cons_of_neg (by simp [hx]), List.takeWhile_cons_of_pos hx,
    List.takeWhile_cons_of_neg (by simp [hy])]

/-- A range of at least two elements starts with its first two indices;
stated with an explicit arithmetic side condition so the rewrite does not
recurse into the tail. -/
theorem range_eq_two_cons (n : Nat) (h : n = (n - 2) + 1 + 1) :
    List.range n = 0 :: 1 :: List.map (Nat.succ ∘ Nat.succ) (List.range (n - 2)) := by
  conv_lhs => rw [h]
  rw [List.range_succ_eq_map, List.range_succ_eq_map, List.map_cons, List.map_map]

/-- Filesystem oracle for the C2 counterexample: exactly the index-0
candidate of the mask `p%032d.png` exists. -/
def gapFS : String → Bool :=
  fun s => s == "p00000000000000000000000000000000.png"

/-- C2, as stated, fails for masks with 32 digits: `10u32.pow(32)` wraps to
`0`, so the probing loop runs zero times and the resolver reports
`NoFilesFound` even though the claimed enumeration up to `10 ^ 32 - 1` would
find the existing index-0 candidate: the first contiguous run of existing
paths over the claimed range is the non-empty singleton of that path. -/
theorem C2_sequence_resolution_counterexample :
    parse_filemask "p%032d.png" = some (.ok ("p", ⟨true, 32⟩, ".png")) ∧
    candidate_bound 32 = 0 ∧
    resolve_mask gapFS "p" ⟨true, 32⟩ ".png" = .error ErrorKind.NoFilesFound ∧
    (((List.range (10 ^ 32)).map (fun i => "p" ++ pad i 32 ++ ".png")).dropWhile
        (fun c => !gapFS c)).takeWhile gapFS =
      ["p00000000000000000000000000000000.png"] := by
  refine ⟨by decide, by decide, by decide, ?_⟩
  rw [range_eq_two_cons (10 ^ 32) (by norm_num), List.map_cons, List.map_cons]
  rw [firstRun_cons_two gapFS _ _ _ (by decide) (by decide)]
  decide

/-- A successful `digitsThenD` match decomposes its input as the nonempty
all-digit capture, the literal `d`, and the remainder. -/
theorem digitsThenD_eq {l ds r : List Char} (h : digitsThenD l = some (ds, r)) :
    l = ds ++ 'd' :: r ∧ ds ≠ [] ∧ ds.all isUnicodeDigit = true := by
  unfold digitsThenD at h
  split at h
  · exact absurd h (by simp)
  · next d0 ds0 htw =>
    split at h
    · next r1 hdw =>
      simp only [Option.some.injEq, Prod.mk.injEq] at h
      obtain ⟨h1, h2⟩ := h
      subst h1
      subst h2
      refine ⟨?_, by simp, ?_⟩
      · rw [← htw, ← hdw, List.takeWhile_append_dropWhile]
      · rw [← htw]
        exact List.all_takeWhile
    · exact absurd h (by simp)

/-- A successful placeholder match at the head of `cs` decomposes `cs` as the
matched text followed by the remainder; the capture is a nonempty digit run. -/
theorem placeholderAt_eq {cs rest ds : List Char} {zp : Bool}
    (h : placeholderAt cs = some (zp, ds, rest)) :
    cs = matchedText zp ds ++ rest ∧ ds ≠ [] ∧ ds.all isUnicodeDigit = true := by
  cases cs with
  | nil => exact absurd h (by simp [placeholderAt])
  | cons c rest0 =>
    simp only [placeholderAt] at h
    split at h
    · next hc =>
      subst hc
      split at h
      · exact absurd h (by simp)
      · next c2 rest2 =>
        split at h
        · next hc2 =>
          subst hc2
          split at h
          · next ds1 r1 heq =>
            simp only [Option.some.injEq, Prod.mk.injEq] at h
            obtain ⟨hzp, hds, hr⟩ := h
            subst hzp; subst hds; subst hr
            obtain ⟨he, hne, hall⟩ := digitsThenD_eq heq
            subst he
            exact ⟨by simp [matchedText], hne, hall⟩
          · split at h
            · next ds2 r2 heq2 =>
              simp only [Option.some.injEq, Prod.mk.injEq] at h
              obtain ⟨hzp, hds, hr⟩ := h
              subst hds; subst hr
              obtain ⟨he, hne, hall⟩ := digitsThenD_eq heq2
              refine ⟨?_, hne, hall⟩
              rw [← hzp]
              simpa [matchedText] using congrArg (List.cons '%') he
            · exact absurd h (by simp)
        · next hc2 =>
          split at h
          · next ds1 r1 heq =>
            simp only [Option.some.injEq, Prod.mk.injEq] at h
            obtain ⟨hzp, hds, hr⟩ := h
            subst hds; subst hr
            obtain ⟨he, hne, hall⟩ := digitsThenD_eq heq
            refine ⟨?_, hne, hall⟩
            rw [← hzp]
            simpa [matchedText] using congrArg (List.cons '%') he
          · exact absurd h (by simp)
    · exact absurd h (by simp)

/-- The placeholder pattern can only match at a `%`. -/
theorem placeholderAt_none_of_ne {c : Char} (l : List Char) (hc : c ≠ '%') :
    placeholderAt (c :: l) = none := by
  simp only [placeholderAt]
  rw [if_neg hc]

/-- A Unicode decimal digit is not a percent sign: every Nd range starts at
or above the code point of `0`, and `%` is below it. -/
theorem unicodeDigit_ne_percent {c : Char} (h : isUnicodeDigit c = true) :
    c ≠ '%' := by
  intro hc
  subst hc
  exact absurd h (by decide)

/-- Prepending characters that are not `%` does not change the number of
placeholder occurrences. -/
theorem countOcc_append {mid : List Char} (rest : List Char)
    (hmid : ∀ x ∈ mid, x ≠ '%') : countOcc (mid ++ rest) = countOcc rest := by
  induction mid with
  | nil => rfl
  | cons x mid ih =>
    have hx : x ≠ '%' := hmid x (List.mem_cons_self _ _)
    simp only [List.cons_append, countOcc, placeholderAt_none_of_ne _ hx,
      Option.isSome_none, List.append_eq]
    rw [ih (fun y hy => hmid y (List.mem_cons_of_mem _ hy))]
    simp

/-- No character of a matched placeholder text after its leading `%` is a
`%`: they are the optional pad `0`, the digit run, and the final `d`. -/
theorem matchedText_tail_ne_percent {zp : Bool} {ds : List Char}
    (hall : ds.all isUnicodeDigit = true) :
    ∀ x ∈ (if zp then '0' :: ds else ds) ++ ['d'], x ≠ '%' := by
  intro x hx
  rcases List.mem_append.mp hx with hx | hx
  · cases zp with
    | true =>
      rcases List.mem_cons.mp hx with hx | hx
      · subst hx; decide
      · exact unicodeDigit_ne_percent (by simpa using List.all_eq_true.mp hall x hx)
    | false => exact unicodeDigit_ne_percent (by simpa using List.all_eq_true.mp hall x hx)
  · rcases List.mem_cons.mp hx with hx | hx
    · subst hx; decide
    · exact absurd hx (List.not_mem_nil x)

/-- A character list has no placeholder occurrence exactly when the leftmost
search finds nothing. -/
theorem findFrom_none (cs : List Char) : findFrom cs = none ↔ countOcc cs = 0 := by
  induction cs with
  | nil => simp [findFrom, countOcc]
  | cons c cs ih =>
    simp only [findFrom, countOcc]
    cases hpl : placeholderAt (c :: cs) with
    | some x =>
      obtain ⟨zp, ds, rest⟩ := x
      simp [hpl]
    | none =>
      simp only [hpl, Option.isSome_none]
      cases hff : findFrom cs with
      | some y =>
        obtain ⟨pre, zp, ds, rest⟩ := y
        simp only [hff] at ih
        simp [← ih]
      | none =>
        simp only [hff] at ih
        simp [← ih]

/-- A successful leftmost search decomposes the input as the skipped
characters, the matched text, and the remainder, and accounts for exactly one
occurrence before the remainder. -/
theorem findFrom_some (cs : List Char) :
    ∀ {pre ds rest : List Char} {zp : Bool},
      findFrom cs = some (pre, zp, ds, rest) →
      cs = pre ++ (matchedText zp ds ++ rest) ∧ ds ≠ [] ∧
        ds.all isUnicodeDigit = true ∧ countOcc cs = 1 + countOcc rest := by
  induction cs with
  | nil => intro pre ds rest zp h; exact absurd h (by simp [findFrom])
  | cons c cs ih =>
    intro pre ds rest zp h
    simp only [findFrom] at h
    cases hpl : placeholderAt (c :: cs) with
    | some x =>
      obtain ⟨zp1, ds1, rest1⟩ := x
      rw [hpl] at h
      simp only [Option.some.injEq, Prod.mk.injEq] at h
      obtain ⟨hpre, hzp, hds, hrest⟩ := h
      subst hpre; subst hzp; subst hds; subst hrest
      obtain ⟨he, hne, hall⟩ := placeholderAt_eq hpl
      have he2 : c :: cs =
          '%' :: (((if zp1 then '0' :: ds1 else ds1) ++ ['d']) ++ rest1) := by
        simpa [matchedText] using he
      injection he2 with hc hcs
      refine ⟨by simpa using he, hne, hall, ?_⟩
      rw [show countOcc (c :: cs) = 1 + countOcc cs from by simp [countOcc, hpl]]
      rw [hcs, countOcc_append rest1 (matchedText_tail_ne_percent hall)]
    | none =>
      rw [hpl] at h
      cases hff : findFrom cs with
      | none => rw [hff] at h; exact absurd h (by simp)
      | some y =>
        obtain ⟨pre1, zp1, ds1, rest1⟩ := y
        rw [hff] at h
        simp only [Option.some.injEq, Prod.mk.injEq] at h
        obtain ⟨hpre, hzp, hds, hrest⟩ := h
        subst hzp; subst hds; subst hrest
        obtain ⟨he, hne, hall, hcount⟩ := ih hff
        subst hpre
        refine ⟨by rw [List.cons_append, ← he], hne, hall, ?_⟩
        rw [show countOcc (c :: cs) = countOcc cs from by simp [countOcc, hpl]]
        exact hcount


/-- C6, as stated, fails on the code: a mask with exactly one placeholder
occurrence need not succeed, because the first capture's digit run goes
through `parse::<usize>().unwrap()`, which panics when the run's value
exceeds `usize::MAX` (20 ASCII digits) or contains a non-ASCII digit that
`[\d]` matched (such as the Gurmukhi digit in `%੩d`).  In both cases the
program aborts instead of returning the parsed triple. -/
theorem C6_parse_outcomes_counterexample :
    countOcc ("%99999999999999999999d" : String).data = 1 ∧
    parse_filemask "%99999999999999999999d" = none ∧
    countOcc ("%੩d" : String).data = 1 ∧
    parse_filemask "%੩d" = none := by
  refine ⟨by decide, by decide, by decide, by decide⟩

/-- C6 (amended): with occurrences counted as the (non-overlapping) start
positions of the placeholder pattern over Unicode decimal digits: zero
occurrences fail with `NoFileMaskFound`; the run panics exactly when the
leftmost match's digit capture is not a valid `usize` decimal; barring the
panic, two or more occurrences fail with `MultipleFileMasks` and exactly one
occurrence succeeds, returning the substrings before and after the match
together with the captures. -/
theorem C6_parse_outcomes (s : String) :
    (parse_filemask s = some (.error ErrorKind.NoFileMaskFound) ↔
      countOcc s.data = 0) ∧
    (parse_filemask s = some (.error ErrorKind.MultipleFileMasks) ↔
      (2 ≤ countOcc s.data ∧ parse_filemask s ≠ none)) ∧
    ((∃ pre fm suf, parse_filemask s = some (.ok (pre, fm, suf))) ↔
      (countOcc s.data = 1 ∧ parse_filemask s ≠ none)) ∧
    (∀ pre fm suf, parse_filemask s = some (.ok (pre, fm, suf)) →
      ∃ ds, ds ≠ [] ∧ ds.all isUnicodeDigit = true ∧
        s.data = pre.data ++ (matchedText fm.zero_padded ds ++ suf.data) ∧
        parseUsize ds = some fm.digits) ∧
    (parse_filemask s = none ↔
      ∃ pre zp ds rest, findFrom s.data = some (pre, zp, ds, rest) ∧
        parseUsize ds = none) := by
  cases hf1 : findFrom s.data with
  | none =>
    have hp : parse_filemask s = some (.error ErrorKind.NoFileMaskFound) := by
      simp only [parse_filemask, hf1]
    have h0 : countOcc s.data = 0 := (findFrom_none _).mp hf1
    refine ⟨by simp [hp, h0], by simp [hp, h0], by simp [hp, h0], ?_, ?_⟩
    · intro pre fm suf h
      rw [hp] at h
      exact absurd h (by simp)
    · simp [hp, hf1]
  | some y =>
    obtain ⟨pre1, zp1, ds1, rest1⟩ := y
    obtain ⟨he, hne, hall, hcount⟩ := findFrom_some _ hf1
    cases hpu : parseUsize ds1 with
    | none =>
      have hp : parse_filemask s = none := by
        simp only [parse_filemask, hf1, hpu]
      refine ⟨by simp [hp]; omega, by simp [hp], by simp [hp], ?_, ?_⟩
      · intro pre fm suf h
        rw [hp] at h
        exact absurd h (by simp)
      · exact ⟨fun _ => ⟨pre1, zp1, ds1, rest1, rfl, hpu⟩, fun _ => hp⟩
    | some v =>
      cases hf2 : findFrom rest1 with
      | some y2 =>
        obtain ⟨pre2, zp2, ds2, rest2⟩ := y2
        have hp : parse_filemask s = some (.error ErrorKind.MultipleFileMasks) := by
          simp only [parse_filemask, hf1, hpu, hf2]
        have h2 : 2 ≤ countOcc s.data := by
          obtain ⟨_, _, _, hcount2⟩ := findFrom_some _ hf2
          omega
        refine ⟨by simp [hp]; omega, by simp [hp, h2], by simp [hp]; omega,
          ?_, ?_⟩
        · intro pre fm suf h
          rw [hp] at h
          exact absurd h (by simp)
        · simp [hp, hf1, hpu]
      | none =>
        have hp : parse_filemask s =
            some (.ok (⟨pre1⟩, ⟨zp1, v⟩, ⟨rest1⟩)) := by
          simp only [parse_filemask, hf1, hpu, hf2]
        have h1 : countOcc s.data = 1 := by
          have h0 : countOcc rest1 = 0 := (findFrom_none _).mp hf2
          omega
        refine ⟨by simp [hp, h1], by simp [hp, h1], ?_, ?_, ?_⟩
        · exact ⟨fun _ => ⟨h1, by simp [hp]⟩,
            fun _ => ⟨⟨pre1⟩, ⟨zp1, v⟩, ⟨rest1⟩, hp⟩⟩
        · intro pre fm suf h
          rw [hp] at h
          simp only [Option.some.injEq, Except.ok.injEq, Prod.mk.injEq] at h
          obtain ⟨hpre, hfm, hsuf⟩ := h
          subst hpre; subst hfm; subst hsuf
          exact ⟨ds1, hne, hall, he, hpu⟩
        · simp [hp, hf1, hpu]

/-- C6 witness: all four outcomes exercised concretely — success on the
repository's own test mask, the two error outcomes on its other test masks,
and the panic on a mask whose single placeholder carries a non-ASCII digit. -/
theorem C6_parse_outcomes_witness :
    (∃ pre fm suf, parse_filemask "foo%03d.png" = some (.ok (pre, fm, suf))) ∧
    parse_filemask "foo.png" = some (.error ErrorKind.NoFileMaskFound) ∧
    parse_filemask "foo%02dbar%4d.png" =
      some (.error ErrorKind.MultipleFileMasks) ∧
    parse_filemask "%੩d" = none :=
  ⟨(C6_parse_outcomes "foo%03d.png").2.2.1.mpr ⟨by decide, by decide⟩,
   (C6_parse_outcomes "foo.png").1.mpr (by decide),
   (C6_parse_outcomes "foo%02dbar%4d.png").2.1.mpr ⟨by decide, by decide⟩,
   (C6_parse_outcomes "%੩d").2.2.2.2.mpr ⟨[], false, ['੩'], [], by decide, by decide⟩⟩

/-- A successful `usize` parse certifies an all-ASCII digit run whose value
fits, and returns that value. -/
theorem parseUsize_some {ds : List Char} {v : Nat} (h : parseUsize ds = some v) :
    ds.all Char.isDigit = true ∧ digitsToNat ds < 2 ^ 64 ∧ v = digitsToNat ds := by
  unfold parseUsize at h
  split at h
  · next hg =>
    rw [Option.some.injEq] at h
    exact ⟨hg.1, hg.2, h.symm⟩
  · exact absurd h (by simp)

/-- A successful parse decomposes the mask as prefix, matched placeholder
text and suffix; the capture is a nonempty run of Unicode digits that the
`usize` parse certifies to be ASCII, and the digit count is its decimal
value. -/
theorem parse_ok_decomp {s pre suf : String} {fm : FileMask}
    (h : parse_filemask s = some (.ok (pre, fm, suf))) :
    ∃ ds, ds ≠ [] ∧ ds.all isUnicodeDigit = true ∧ ds.all Char.isDigit = true ∧
      s.data = pre.data ++ (matchedText fm.zero_padded ds ++ suf.data) ∧
      fm.digits = digitsToNat ds := by
  cases hf1 : findFrom s.data with
  | none =>
    have hp : parse_filemask s = some (.error ErrorKind.NoFileMaskFound) := by
      simp only [parse_filemask, hf1]
    rw [hp] at h
    exact absurd h (by simp)
  | some y =>
    obtain ⟨pre1, zp1, ds1, rest1⟩ := y
    cases hpu : parseUsize ds1 with
    | none =>
      have hp : parse_filemask s = none := by
        simp only [parse_filemask, hf1, hpu]
      rw [hp] at h
      exact absurd h (by simp)
    | some v =>
      cases hf2 : findFrom rest1 with
      | some y2 =>
        have hp : parse_filemask s =
            some (.error ErrorKind.MultipleFileMasks) := by
          simp only [parse_filemask, hf1, hpu, hf2]
        rw [hp] at h
        exact absurd h (by simp)
      | none =>
        have hp : parse_filemask s =
            some (.ok (⟨pre1⟩, ⟨zp1, v⟩, ⟨rest1⟩)) := by
          simp only [parse_filemask, hf1, hpu, hf2]
        rw [hp] at h
        simp only [Option.some.injEq, Except.ok.injEq, Prod.mk.injEq] at h
        obtain ⟨hpre, hfm, hsuf⟩ := h
        obtain ⟨he, hne, hall, _⟩ := findFrom_some _ hf1
        obtain ⟨hascii, _, hv⟩ := parseUsize_some hpu
        subst hpre; subst hfm; subst hsuf
        exact ⟨ds1, hne, hall, hascii, he, hv⟩

/-- A decimal digit has code point between 48 and 57. -/
theorem isDigit_toNat {c : Char} (h : c.isDigit = true) :
    48 ≤ c.toNat ∧ c.toNat ≤ 57 := by
  simp only [Char.isDigit, Bool.and_eq_true, decide_eq_true_eq] at h
  exact ⟨h.1, h.2⟩

/-- The character with code point 48 is `0`. -/
theorem char_toNat_48 {c : Char} (h : c.toNat = 48) : c = '0' := by
  have h2 := Char.ofNat_toNat c
  rw [h] at h2
  rw [← h2]

/-- The decimal accumulator never decreases. -/
theorem digitsFold_ge (ds : List Char) :
    ∀ a : Nat, a ≤ ds.foldl (fun acc c => acc * 10 + (c.toNat - 48)) a := by
  induction ds with
  | nil => intro a; exact Nat.le_refl a
  | cons c ds ih =>
    intro a
    calc a ≤ a * 10 + (c.toNat - 48) := by omega
    _ ≤ _ := ih _

/-- A digit run whose decimal value is zero consists only of `0`s. -/
theorem digitsToNat_zero (ds : List Char) (hall : ds.all Char.isDigit = true)
    (h : digitsToNat ds = 0) : ∀ c ∈ ds, c = '0' := by
  induction ds with
  | nil => intro c hc; exact absurd hc (List.not_mem_nil c)
  | cons c0 ds ih =>
    have hd : c0.isDigit = true := by
      have := List.all_eq_true.mp hall c0 (List.mem_cons_self _ _)
      simpa using this
    have htail : ds.all Char.isDigit = true := by
      rw [List.all_cons, Bool.and_eq_true] at hall
      exact hall.2
    unfold digitsToNat at h
    rw [List.foldl_cons] at h
    have hge := digitsFold_ge ds (0 * 10 + (c0.toNat - 48))
    have hc0 : c0.toNat - 48 = 0 := by omega
    have hc0' : c0 = '0' := char_toNat_48 (by
      have := (isDigit_toNat hd).1
      omega)
    intro c hc
    rcases List.mem_cons.mp hc with hc | hc
    · rw [hc, hc0']
    · refine ih htail ?_ c hc
      unfold digitsToNat
      have : (0 : Nat) * 10 + (c0.toNat - 48) = 0 := by omega
      rw [this] at h
      exact h

/-- C7, as stated, fails on the mask `%0d`: the optional pad group cannot
take the `0` (no digits would remain for the mandatory digit run), so the
run captures `"0"` and the parsed digit count is `0`, not `≥ 1`. -/
theorem C7_digits_positive_counterexample :
    parse_filemask "%0d" = some (.ok ("", ⟨false, 0⟩, "")) ∧
    (FileMask.mk false 0).digits < 1 :=
  ⟨by decide, by decide⟩

/-- C7 (amended): every successful parse yields `digits ≥ 1` unless the
placeholder's captured digit run consists only of `0` characters (as in
`%0d`, `%00d`, `%000d`), in which case `digits = 0`. -/
theorem C7_digits_positive (s pre suf : String) (fm : FileMask)
    (h : parse_filemask s = some (.ok (pre, fm, suf))) :
    1 ≤ fm.digits ∨
      (fm.digits = 0 ∧ ∃ ds, ds ≠ [] ∧ (∀ c ∈ ds, c = '0') ∧
        s.data = pre.data ++ (matchedText fm.zero_padded ds ++ suf.data)) := by
  obtain ⟨ds, hne, hall, hascii, hdec, hdig⟩ := parse_ok_decomp h
  by_cases h1 : 1 ≤ fm.digits
  · exact Or.inl h1
  · right
    have h0 : fm.digits = 0 := by omega
    exact ⟨h0, ds, hne, digitsToNat_zero ds hascii (by omega), hdec⟩

/-- C7 witness: the amended dichotomy evaluated on `%0d`, which lands in the
all-zero-run branch. -/
theorem C7_digits_positive_witness :
    1 ≤ (FileMask.mk false 0).digits ∨
      ((FileMask.mk false 0).digits = 0 ∧ ∃ ds, ds ≠ [] ∧ (∀ c ∈ ds, c = '0') ∧
        ("%0d" : String).data =
          ("" : String).data ++
            (matchedText (FileMask.mk false 0).zero_padded ds ++
              ("" : String).data)) :=
  C7_digits_positive "%0d" "" "" ⟨false, 0⟩ (by decide)

/-- C8, as stated, fails on the mask `%003d`: the pad group takes the first
`0`, the run captures `"03"`, so `digits = 3` and the reconstruction
`%0` + `3` + `d` is `%03d`, which does not match the original region `%003d`. -/
theorem C8_reconstruction_counterexample :
    parse_filemask "%003d" = some (.ok ("", ⟨true, 3⟩, "")) ∧
    "" ++ "%" ++ "0" ++ Nat.repr (3 : Nat) ++ "d" ++ "" ≠ "%003d" :=
  ⟨by decide, by decide⟩

/-- C8 (amended): for every mask the parse completes successfully, the parse
result decomposes the mask around the matched region, and the reconstruction
`prefix + % + (0 if zero padded) + digits + d + suffix` equals the original
string exactly when the decimal rendering of `digits` equals the captured
digit run — i.e. unless the run carries redundant leading zeros. -/
theorem C8_reconstruction (s pre suf : String) (fm : FileMask)
    (h : parse_filemask s = some (.ok (pre, fm, suf))) :
    ∃ ds, ds ≠ [] ∧ ds.all isUnicodeDigit = true ∧
      s.data = pre.data ++ (matchedText fm.zero_padded ds ++ suf.data) ∧
      fm.digits = digitsToNat ds ∧
      (pre ++ "%" ++ (if fm.zero_padded then "0" else "") ++ Nat.repr fm.digits ++
          "d" ++ suf = s ↔ (Nat.repr fm.digits).data = ds) := by
  obtain ⟨ds, hne, hall, hascii, hdec, hdig⟩ := parse_ok_decomp h
  refine ⟨ds, hne, hall, hdec, hdig, ?_⟩
  rw [String.ext_iff, hdec]
  cases hzp : fm.zero_padded <;>
    simp [matchedText, hzp, List.append_assoc]

/-- C8 witness: the reconstruction statement evaluated on the repository's
own test mask `foo%03d.png`, where the round-trip holds. -/
theorem C8_reconstruction_witness :
    ∃ ds, ds ≠ [] ∧ ds.all isUnicodeDigit = true ∧
      ("foo%03d.png" : String).data =
        ("foo" : String).data ++
          (matchedText (FileMask.mk true 3).zero_padded ds ++
            (".png" : String).data) ∧
      (FileMask.mk true 3).digits = digitsToNat ds ∧
      ("foo" ++ "%" ++ (if (FileMask.mk true 3).zero_padded then "0" else "") ++
          Nat.repr (FileMask.mk true 3).digits ++ "d" ++ ".png" = "foo%03d.png" ↔
        (Nat.repr (FileMask.mk true 3).digits).data = ds) :=
  C8_reconstruction "foo%03d.png" "foo" ".png" ⟨true, 3⟩ (by decide)
